import Mathlib

/-!
Verification development for the richardparker template compiler
(src/src/compiler.js).  The file embeds, as executable Lean definitions,
the complete bundled implementation found in the source file
(`require.register("richardparker/index.js", ...)`, lines 501-824), which
contains the parser, the transformer with its native macros, the helper
functions and the render-time runtime (`resolve`, `each`).  For the parse
stage and the compile error messages the definitions follow the current
top-of-file version (lines 17-95), whose `parse`/`throwError` carry the
`options.file` identifier; the character-level tree construction of the
two parsers is identical.

Strings are modelled as `List Char`; JavaScript values as the inductive
`Value`.  Generated JavaScript code is modelled by the inductive `Code`
whose constructors correspond one-to-one to the statement shapes the
macros emit, and `exec` gives those statements their JavaScript meaning
(mutable `path` and `__out` threaded through a state record; the
`keepPath` IIFE `(function (path) \x7b ... \x7d (path))` restores `path`).
-/

namespace RP

/-- Left curly bracket character (written via its code point). -/
def lbrace : Char := Char.ofNat 123

/-- Right curly bracket character (written via its code point). -/
def rbrace : Char := Char.ofNat 125

/-- JavaScript values, as far as the runtime of this program observes
them: `undefined`, booleans, (integer) numbers, strings, arrays and
objects.  An object carries its own properties as an association list
plus an optional prototype, so that the `hasOwnProperty` filter in the
runtime `each` (compiler.js lines 816-818) is a meaningful operation. -/
inductive Value where
  | vUndefined : Value
  | vBool (b : Bool) : Value
  | vNum (n : Int) : Value
  | vStr (s : List Char) : Value
  | vArr (elems : List Value) : Value
  | vObj (own : List (List Char × Value)) (proto : Option Value) : Value
deriving Repr

instance : Inhabited Value := ⟨.vUndefined⟩

/-- JavaScript truthiness, used by `resolve`'s loop condition
(`obj[parts[0]]`, line 792), by `each`'s `if (!obj) return` (line 810)
and by `data = data || \x7b\x7d` (line 769). -/
def truthy : Value → Bool
  | .vUndefined => false
  | .vBool b => b
  | .vNum n => n != 0
  | .vStr s => s != []
  | .vArr _ => true
  | .vObj _ _ => true

/-- First binding of a key in an association list (JavaScript objects
cannot contain a key twice; the model reads the first occurrence). -/
def lookupStr : List (List Char × Value) → List Char → Option Value
  | [], _ => none
  | (k, v) :: rest, key => if k = key then some v else lookupStr rest key

/-- Canonical decimal numeral reading of a property key (used for array
and string index access, JavaScript's canonical array index strings:
nonempty, digits only, no leading zero except "0"). -/
def natKey : List Char → Option Nat :=
  fun k =>
    if k ≠ [] ∧ k.all Char.isDigit ∧ (k.head? ≠ some '0' ∨ k = ['0']) then
      some (k.foldl (fun n c => n * 10 + (c.toNat - 48)) 0)
    else none

/-- Decimal digits of a natural number. -/
def natChars (n : Nat) : List Char := (Nat.repr n).data

/-- Decimal representation of an integer. -/
def intChars (n : Int) : List Char := (Int.repr n).data

mutual

/-- JavaScript property read `obj[key]` for the value fragment the model
covers: object own properties with prototype-chain fallback, array
index/`length` access, string index/`length` access; every other read
is `undefined`. -/
def getProp : Value → List Char → Value
  | .vObj own proto, k =>
    match lookupStr own k with
    | some v => v
    | none => getPropProto proto k
  | .vArr elems, k =>
    if k = "length".data then .vNum elems.length
    else
      match natKey k with
      | some i =>
        match elems.get? i with
        | some v => v
        | none => .vUndefined
      | none => .vUndefined
  | .vStr s, k =>
    if k = "length".data then .vNum s.length
    else
      match natKey k with
      | some i =>
        match s.get? i with
        | some c => .vStr [c]
        | none => .vUndefined
      | none => .vUndefined
  | _, _ => .vUndefined

/-- Prototype-chain step of the property read: continue on the
prototype when there is one, otherwise the read is `undefined`. -/
def getPropProto : Option Value → List Char → Value
  | some p, k => getProp p k
  | none, _ => .vUndefined

end

/-- Split a string at every dot, keeping empty groups
(`path.split(/\./)`, compiler.js line 789). -/
def splitDot : List Char → List (List Char)
  | [] => [[]]
  | c :: rest =>
    if c = '.' then [] :: splitDot rest
    else
      match splitDot rest with
      | [] => [[c]]
      | g :: gs => (c :: g) :: gs

/-- Loop of the runtime `resolve` (compiler.js lines 792-799): descend
while the next property value is truthy; if any part is left when the
descent stops, the result is `undefined`. -/
def resolveParts : List (List Char) → Value → Value
  | [], obj => obj
  | k :: rest, obj =>
    if truthy (getProp obj k) then resolveParts rest (getProp obj k)
    else .vUndefined

/-- Runtime `resolve(path)` (compiler.js lines 786-800) against a data
value: split the path at dots, drop empty parts, then descend. -/
def resolve (path : List Char) (data : Value) : Value :=
  resolveParts ((splitDot path).filter (fun p => p ≠ [])) data

mutual

/-- String conversion used by `__out.join("")` (compiler.js line 773)
on each pushed element: `undefined`/`null` become empty, strings stay,
numbers print in decimal, booleans print as words, arrays join their
elements with commas, plain objects print as "[object Object]". -/
def jsStr : Value → List Char
  | .vUndefined => []
  | .vBool b => if b then "true".data else "false".data
  | .vNum n => intChars n
  | .vStr s => s
  | .vArr elems => jsStrList elems
  | .vObj _ _ => "[object Object]".data

/-- Comma-joined element list of an array, as `Array.prototype.join`
renders a nested array. -/
def jsStrList : List Value → List Char
  | [] => []
  | [v] => jsStr v
  | v :: w :: rest => jsStr v ++ ',' :: jsStrList (w :: rest)

end

/-- Own-property test `obj.hasOwnProperty(key)` for the modelled
objects. -/
def hasOwn (own : List (List Char × Value)) (k : List Char) : Bool :=
  (lookupStr own k).isSome

/-- Keys enumerated by `for (var key in obj)`: own keys first, then the
prototype's enumeration with shadowed keys removed. -/
def forInKeys : Value → List (List Char)
  | .vObj own proto =>
    let ownKeys := own.map Prod.fst
    ownKeys ++
      (match proto with
       | some p => (forInKeys p).filter (fun k => !(ownKeys.contains k))
       | none => [])
  | _ => []

/-- Visit sequence of the runtime `each(obj, iterator)` (compiler.js
lines 809-822) as the list of `(key, value)` arguments the iterator
receives, in call order: falsy values give no visit; arrays give their
indices in order (the key is the numeric index); other values give the
`for`-`in` keys that pass the `hasOwnProperty` filter (strings thus
give their index keys). -/
def eachVisits (v : Value) : List (Value × Value) :=
  if truthy v = false then []
  else
    match v with
    | .vArr elems =>
      (List.range elems.length).map
        (fun i => (.vNum (Int.ofNat i), (elems.get? i).getD .vUndefined))
    | .vObj own proto =>
      ((forInKeys (.vObj own proto)).filter (hasOwn own)).map
        (fun k => (.vStr k, getProp (.vObj own proto) k))
    | .vStr s =>
      (List.range s.length).map
        (fun i =>
          (.vStr (natChars i),
           match s.get? i with
           | some c => .vStr [c]
           | none => .vUndefined))
    | _ => []

/-- Outcome of running a piece of JavaScript that can throw: either an
`Error` carrying a message (`throw new Error(message)`), or the
incidental `TypeError` raised when a method of `undefined` is invoked
(no message is modelled for it). -/
inductive JsError where
  | err (message : List Char) : JsError
  | typeError : JsError
deriving Repr, DecidableEq

/-- Parse-tree item: a node of the parse tree is a JavaScript array
holding literal strings and child nodes (compiler.js lines 55-64), so a
node is a `List Item` and an item is either a string slot or a child
node. -/
inductive Item where
  | str (s : List Char) : Item
  | node (children : List Item) : Item
deriving Repr

/-- Message produced by `throwError` (compiler.js lines 48-53): the
given message followed by a line naming `options.file`. -/
def throwErrorMsg (message file : List Char) : List Char :=
  message ++ "\nFile: ".data ++ file

/-- Character loop of `parse` (compiler.js lines 75-90), with the
current node split into its finished items and the trailing string
accumulator.  On a right brace with an empty stack, `stack.pop()`
yields `undefined` and `parent.push(current)` throws a `TypeError`
(line 82-83); at end of input with a non-empty stack, `throwError`
raises the unmatched-bracket message (lines 91-93). -/
def parseLoop (file : List Char) :
    List Char → List Item × List Char → List (List Item × List Char) →
    Except JsError (List Item)
  | [], (items, acc), [] => .ok (items ++ [.str acc])
  | [], _, _ :: _ => .error (.err (throwErrorMsg "Unmatched curly bracket".data file))
  | c :: cs, (items, acc), stack =>
    if c = lbrace then
      parseLoop file cs ([], []) ((items, acc) :: stack)
    else if c = rbrace then
      match stack with
      | [] => .error .typeError
      | (pitems, pacc) :: rest =>
        parseLoop file cs (pitems ++ [.str pacc, .node (items ++ [.str acc])], []) rest
    else
      parseLoop file cs (items, acc ++ [c]) stack

/-- Tree parser `parse(str, options)` (compiler.js lines 69-95),
returning the root node's item list. -/
def parse (file : List Char) (str : List Char) : Except JsError (List Item) :=
  parseLoop file str ([], []) []

/-- Brace classification of an input string scanned at a given open
depth: `ok` when every brace closes and none closes early, `openBrace`
when the input ends with unclosed braces, `closeBrace` when some right
brace arrives at depth zero. -/
inductive ScanResult where
  | ok | openBrace | closeBrace
deriving Repr, DecidableEq

/-- Single left-to-right scan classifying the brace structure of an
input at a given open depth. -/
def scan : List Char → Nat → ScanResult
  | [], 0 => .ok
  | [], _ + 1 => .openBrace
  | c :: cs, d =>
    if c = lbrace then scan cs (d + 1)
    else if c = rbrace then
      match d with
      | 0 => .closeBrace
      | d + 1 => scan cs d
    else scan cs d

/-- A template string has balanced braces when the scan at depth zero
accepts it. -/
def balanced (s : List Char) : Bool := scan s 0 = .ok

mutual

/-- Concatenation of an item back to source text: a string slot is
itself, a child node is its contents wrapped in braces. -/
def unparseItem : Item → List Char
  | .str s => s
  | .node children => lbrace :: unparseList children ++ [rbrace]

/-- Concatenation of a node's items back to source text. -/
def unparseList : List Item → List Char
  | [] => []
  | i :: rest => unparseItem i ++ unparseList rest

end

/-- Whitespace class of the JavaScript regexes `\s`/`\S` used by
`parseArg`, restricted to the common whitespace characters. -/
def isSpaceJS (c : Char) : Bool :=
  c = ' ' ∨ c = '\t' ∨ c = '\n' ∨ c = '\r' ∨ c = Char.ofNat 11 ∨ c = Char.ofNat 12

/-- Token extracted by `helper.parseArg` (compiler.js lines 736-740):
the leading run of non-whitespace characters of the node's first string
slot (`/^\S+/`), empty when the slot starts with whitespace. -/
def argTok (s : List Char) : List Char :=
  s.takeWhile (fun c => ¬ isSpaceJS c)

/-- Remainder left in the first string slot by `helper.parseArg`: the
slot with the token and the following whitespace run removed
(`tree[0].substr(arg.length).replace(/^\s+/, '')`). -/
def argRem (s : List Char) : List Char :=
  (s.drop (argTok s).length).dropWhile isSpaceJS

/-- First replacement of `helper.parsePath` (compiler.js line 744): the
global regex `(\["?|"?])` rewrites `[`, `["`, `"]` and `]` to a dot,
scanning left to right. -/
def bracketToDots : List Char → List Char
  | [] => []
  | '[' :: '"' :: rest => '.' :: bracketToDots rest
  | '[' :: rest => '.' :: bracketToDots rest
  | '"' :: ']' :: rest => '.' :: bracketToDots rest
  | ']' :: rest => '.' :: bracketToDots rest
  | c :: rest => c :: bracketToDots rest

/-- Second replacement of `helper.parsePath` (line 745): a nonempty
token not starting with a dot receives a leading dot. -/
def ensureLeadingDot (s : List Char) : List Char :=
  match s with
  | [] => []
  | c :: rest => if c = '.' then c :: rest else '.' :: c :: rest

/-- Third replacement of `helper.parsePath` (line 746): one trailing
dot is removed. -/
def dropTrailingDot (s : List Char) : List Char :=
  if s.getLast? = some '.' then s.dropLast else s

/-- Normalization chain of `helper.parsePath` (compiler.js lines
742-747) applied to the raw token. -/
def pathNorm (s : List Char) : List Char :=
  dropTrailingDot (ensureLeadingDot (bracketToDots s))

/-- Statement shapes of the JavaScript code generated by the macros
(compiler.js lines 601-677 and 700-758), as an abstract syntax whose
meaning is given by `exec`:
`pushLit s`      is `__out.push("s")` (helper.output);
`pushResolve p`  is `__out.push(resolve(path + "p"))` (macro `.`);
`pushPath p`     is `__out.push(path + "p")` (macro `path`);
`ifHas p b`      is `if (typeof resolve(path + "p") !== "undefined") \x7b b \x7d` (macro `has`);
`assignAdd p`    is `path += "p"`;
`keepPath b`     is `(function (path) \x7b b \x7d(path))` (helper.keepPath);
`eachLoop p b`   is `each(resolve("p"), function (k) \x7b (function (path) \x7b path += "." + k; b \x7d(path)) \x7d)`
(the loop body of macro `each`, which resolves the macro's own path
argument, not the ambient path extended by it). -/
inductive Code where
  | skip : Code
  | seq (a b : Code) : Code
  | pushLit (s : List Char) : Code
  | pushResolve (p : List Char) : Code
  | pushPath (p : List Char) : Code
  | ifHas (p : List Char) (body : Code) : Code
  | assignAdd (p : List Char) : Code
  | keepPath (body : Code) : Code
  | eachLoop (p : List Char) (body : Code) : Code
deriving Repr, DecidableEq

/-- User macro registry (`options.macros`).  A user macro maps the
node — already stripped of the macro name by `parseArg` — to generated
code; the model's user macros do not re-enter the transformer. -/
def Registry := List (List Char × (List Item → Code))

/-- Lookup `macros[macroName]` in the user registry. -/
def regLookup : Registry → List Char → Option (List Item → Code)
  | [], _ => none
  | (k, m) :: rest, key => if k = key then some m else regLookup rest key

/-- Code for one literal string slot, `helper.output` (compiler.js
lines 706-709): nothing for the empty string, a push otherwise. -/
def output (s : List Char) : Code :=
  if s = [] then .skip else .pushLit s

/-- Names of the native macros (keys of `nativeMacros`, compiler.js
lines 591-678). -/
def nativeNames : List (List Char) :=
  [".".data, "->".data, "has".data, "each".data, "path".data, "out".data]

mutual

/-- One step of the walk of `helper.transformTree` (compiler.js lines
718-728): a string item becomes literal output via `helper.output`, a
child node is transformed recursively. -/
def transformItem (macros : Registry) (file : List Char) :
    Item → Except JsError Code
  | .str s => .ok (output s)
  | .node c => transformNode macros file c

/-- The transformer `transform` (compiler.js lines 531-541) applied to
one node, together with the body of the native macro it dispatches to
(lines 591-678).  The head string slot is consumed by `parseArg`
(macro-name token) and, for the path-taking macros, once more by
`parsePath`; `helper.transformTree` over the node with its consumed
head string is written out as the code for the remaining head string
followed by the transformation of the remaining items.  A node without
a leading string slot cannot arise from `parse`; on such a node
`tree[0].substr` would throw, modelled as a `TypeError`. -/
def transformNode (macros : Registry) (file : List Char) :
    List Item → Except JsError Code
  | [] => .error .typeError
  | .node _ :: _ => .error .typeError
  | .str s :: rest =>
    let name := argTok s
    let s₁ := argRem s
    match regLookup macros name with
    | some m => .ok (m (.str s₁ :: rest))
    | none =>
      if name = "out".data then do
        let b ← transformItems macros file rest
        .ok (.seq (output s₁) b)
      else if name = ".".data then
        .ok (.pushResolve (pathNorm (argTok s₁)))
      else if name = "->".data then do
        let b ← transformItems macros file rest
        .ok (.keepPath (.seq (.assignAdd (pathNorm (argTok s₁)))
              (.seq (output (argRem s₁)) b)))
      else if name = "has".data then do
        let b ← transformItems macros file rest
        .ok (.ifHas (pathNorm (argTok s₁)) (.seq (output (argRem s₁)) b))
      else if name = "each".data then do
        let b ← transformItems macros file rest
        .ok (.keepPath (.seq (.assignAdd (pathNorm (argTok s₁)))
              (.eachLoop (pathNorm (argTok s₁)) (.seq (output (argRem s₁)) b))))
      else if name = "path".data then
        .ok (.pushPath (pathNorm (argTok s₁)))
      else
        .error (.err (throwErrorMsg
          ("Not a macro: \x22".data ++ name ++ "\x22".data) file))

/-- Walk of `helper.transformTree` (compiler.js lines 718-728) over a
node's items: string slots become literal output, child nodes are
transformed recursively, fragments concatenate in document order and
the first thrown error aborts the walk. -/
def transformItems (macros : Registry) (file : List Char) :
    List Item → Except JsError Code
  | [] => .ok .skip
  | i :: rest => do
    let a ← transformItem macros file i
    let b ← transformItems macros file rest
    .ok (.seq a b)

end

/-- The `typeof v === "undefined"` test used by the `has` macro's
generated guard (compiler.js line 632). -/
def isUndef : Value → Bool
  | .vUndefined => true
  | _ => false

/-- Render-time state of the generated function: the mutable `path`
variable and the `__out` accumulator array. -/
structure RState where
  path : List Char
  out : List Value
deriving Repr

/-- Meaning of the generated statements (compiler.js lines 601-677,
767-775): `__out.push` appends, `path +=` mutates the path, the
`keepPath` function expression shadows `path` so the body's mutations
are dropped on exit, `has` guards on the resolved value not being
`undefined`, and `each` runs its body once per visit of
`each(resolve(p), ...)` with the iteration key appended to the path
after a dot, each iteration inside its own `keepPath` scope. -/
def exec (data : Value) : Code → RState → RState
  | .skip, s => s
  | .seq a b, s => exec data b (exec data a s)
  | .pushLit str, s => ⟨s.path, s.out ++ [.vStr str]⟩
  | .pushResolve p, s => ⟨s.path, s.out ++ [resolve (s.path ++ p) data]⟩
  | .pushPath p, s => ⟨s.path, s.out ++ [.vStr (s.path ++ p)]⟩
  | .ifHas p b, s =>
    if isUndef (resolve (s.path ++ p) data) = false then exec data b s else s
  | .assignAdd p, s => ⟨s.path ++ p, s.out⟩
  | .keepPath b, s => ⟨s.path, (exec data b s).out⟩
  | .eachLoop p b, s =>
    (eachVisits (resolve p data)).foldl
      (fun st kv =>
        ⟨st.path, (exec data b ⟨st.path ++ '.' :: jsStr kv.1, st.out⟩).out⟩)
      s

/-- The compiled render function produced by `helper.wrapTemplate`
(compiler.js lines 767-775): default a falsy data argument to an empty
object, run the generated code with an empty path and output array,
and return `__out.join("")`. -/
def wrapTemplate (code : Code) (data : Value) : List Char :=
  let d := if truthy data then data else .vObj [] none
  ((exec d code ⟨[], []⟩).out.map jsStr).flatten

/-- The compiler `compile(input, options)` (compiler.js lines 28-46):
parse `'out ' + input` and transform the root node; the result is the
code of the render function (errors from either stage propagate to the
caller synchronously). -/
def compile (macros : Registry) (file : List Char) (input : List Char) :
    Except JsError Code := do
  let tree ← parse file ("out ".data ++ input)
  transformNode macros file tree

/-- The convenience entry point `render(str, data, options)`
(compiler.js lines 17-19): compile, then apply the render function to
the data. -/
def render (macros : Registry) (file : List Char) (input : List Char)
    (data : Value) : Except JsError (List Char) :=
  (compile macros file input).map (fun code => wrapTemplate code data)

/-- Discrimination between a deliberately thrown `Error` (which carries
a diagnostic message) and the incidental `TypeError` crash. -/
def isThrownError : JsError → Bool
  | .err _ => true
  | .typeError => false

/-! ## Helper lemmas -/

/-- A string all of whose characters are whitespace yields the empty
macro-name token. -/
lemma argTok_all_space {s : List Char} (h : ∀ c ∈ s, isSpaceJS c = true) :
    argTok s = [] := by
  cases s with
  | nil => rfl
  | cons c rest =>
    have hc := h c (by simp)
    simp [argTok, List.takeWhile_cons, hc]

/-- A string with no whitespace character is its own macro-name
token. -/
lemma argTok_no_space {s : List Char} (h : ∀ c ∈ s, isSpaceJS c = false) :
    argTok s = s := by
  induction s with
  | nil => rfl
  | cons c rest ih =>
    have hc := h c (by simp)
    have hrest : ∀ x ∈ rest, isSpaceJS x = false := fun x hx => h x (by simp [hx])
    simp only [argTok] at ih ⊢
    simp only [List.takeWhile_cons, hc]
    simp
    exact hrest

/-- A string with no whitespace character leaves no remainder after the
macro-name token is consumed. -/
lemma argRem_no_space {s : List Char} (h : ∀ c ∈ s, isSpaceJS c = false) :
    argRem s = [] := by
  simp [argRem, argTok_no_space h]

/-- A key that occurs in the association list is found. -/
lemma lookupStr_isSome_of_mem {own : List (List Char × Value)} {k : List Char}
    (h : k ∈ own.map Prod.fst) : (lookupStr own k).isSome = true := by
  induction own with
  | nil => simp at h
  | cons kv rest ih =>
    by_cases hk : kv.1 = k
    · simp [lookupStr, hk]
    · simp only [List.map_cons, List.mem_cons] at h
      rcases h with h | h
      · exact absurd h.symm hk
      · simp [lookupStr, hk, ih h]

/-- A key that does not occur in the association list is not found. -/
lemma lookupStr_eq_none_of_not_mem {own : List (List Char × Value)} {k : List Char}
    (h : k ∉ own.map Prod.fst) : lookupStr own k = none := by
  induction own with
  | nil => rfl
  | cons kv rest ih =>
    simp only [List.map_cons, List.mem_cons, not_or] at h
    have h1 : kv.1 ≠ k := fun hk => h.1 hk.symm
    simp [lookupStr, h1, ih h.2]

/-- With no duplicate keys, lookup of a present pair's key returns that
pair's value. -/
lemma lookupStr_of_mem_nodup {own : List (List Char × Value)}
    (hnd : (own.map Prod.fst).Nodup) {kv : List Char × Value} (h : kv ∈ own) :
    lookupStr own kv.1 = some kv.2 := by
  induction own with
  | nil => simp at h
  | cons hd rest ih =>
    simp only [List.map_cons, List.nodup_cons] at hnd
    rcases List.mem_cons.mp h with h | h
    · simp [lookupStr, h]
    · have hne : hd.1 ≠ kv.1 := by
        intro he
        exact hnd.1 (he ▸ List.mem_map_of_mem Prod.fst h)
      simp [lookupStr, hne, ih hnd.2 h]

/-- A truthy value is not `undefined`. -/
lemma truthy_ne_vUndefined {v : Value} (h : truthy v = true) :
    isUndef v = false := by
  cases v <;> simp_all [truthy, isUndef]

/-- Splitting a dot-free string at dots gives the string as the only
group. -/
lemma splitDot_no_dot {k : List Char} (h : '.' ∉ k) : splitDot k = [k] := by
  induction k with
  | nil => rfl
  | cons c rest ih =>
    simp only [List.mem_cons, not_or] at h
    have : c ≠ '.' := fun hc => h.1 hc.symm
    simp [splitDot, this, ih h.2]

/-- Reconstruction of the text represented by a parser state's current
node: the finished items followed by the trailing accumulator. -/
def unparseCur (cur : List Item × List Char) : List Char :=
  unparseList cur.1 ++ cur.2

/-- Reconstruction of the text consumed so far that is held on the
parser stack: each enclosing node's text followed by its still-open
left brace, outermost first. -/
def unparseStack : List (List Item × List Char) → List Char
  | [] => []
  | top :: rest => unparseStack rest ++ unparseCur top ++ [lbrace]

/-- Unparsing distributes over item-list concatenation. -/
lemma unparseList_append (a b : List Item) :
    unparseList (a ++ b) = unparseList a ++ unparseList b := by
  induction a with
  | nil => simp [unparseList]
  | cons i rest ih => simp [unparseList, ih]

/-- Step equation of `scan` on a left brace. -/
lemma scan_lbrace (cs : List Char) (d : Nat) :
    scan (lbrace :: cs) d = scan cs (d + 1) := by
  simp [scan]

/-- Step equation of `scan` on a right brace at positive depth. -/
lemma scan_rbrace_succ (cs : List Char) (d : Nat) :
    scan (rbrace :: cs) (d + 1) = scan cs d := by
  have h : rbrace ≠ lbrace := by decide
  simp [scan, h]

/-- Step equation of `scan` on a right brace at depth zero. -/
lemma scan_rbrace_zero (cs : List Char) :
    scan (rbrace :: cs) 0 = .closeBrace := by
  have h : rbrace ≠ lbrace := by decide
  simp [scan, h]

/-- Step equation of `scan` on an ordinary character. -/
lemma scan_other {c : Char} (hl : c ≠ lbrace) (hr : c ≠ rbrace)
    (cs : List Char) (d : Nat) : scan (c :: cs) d = scan cs d := by
  simp [scan, hl, hr]

/-- Step equation of `parseLoop` on a left brace. -/
lemma parseLoop_lbrace (file cs : List Char) (cur : List Item × List Char)
    (stack : List (List Item × List Char)) :
    parseLoop file (lbrace :: cs) cur stack =
      parseLoop file cs ([], []) (cur :: stack) := by
  obtain ⟨cur1, cur2⟩ := cur
  simp [parseLoop]

/-- Step equation of `parseLoop` on a right brace with a non-empty
stack. -/
lemma parseLoop_rbrace_cons (file cs : List Char) (cur : List Item × List Char)
    (p : List Item × List Char) (rest : List (List Item × List Char)) :
    parseLoop file (rbrace :: cs) cur (p :: rest) =
      parseLoop file cs (p.1 ++ [.str p.2, .node (cur.1 ++ [.str cur.2])], []) rest := by
  obtain ⟨cur1, cur2⟩ := cur
  obtain ⟨p1, p2⟩ := p
  have h : rbrace ≠ lbrace := by decide
  simp [parseLoop, h]

/-- Step equation of `parseLoop` on a right brace with an empty stack
(the `stack.pop()`-of-`undefined` crash). -/
lemma parseLoop_rbrace_nil (file cs : List Char) (cur : List Item × List Char) :
    parseLoop file (rbrace :: cs) cur [] = .error .typeError := by
  obtain ⟨cur1, cur2⟩ := cur
  have h : rbrace ≠ lbrace := by decide
  simp [parseLoop, h]

/-- Step equation of `parseLoop` on an ordinary character. -/
lemma parseLoop_other (file : List Char) {c : Char} (hl : c ≠ lbrace)
    (hr : c ≠ rbrace) (cs : List Char) (cur : List Item × List Char)
    (stack : List (List Item × List Char)) :
    parseLoop file (c :: cs) cur stack =
      parseLoop file cs (cur.1, cur.2 ++ [c]) stack := by
  obtain ⟨cur1, cur2⟩ := cur
  simp [parseLoop, hl, hr]

/-- Classification of `parseLoop`'s result by the brace scan of the
remaining input at the current stack depth: a balanced remainder
parses, a remainder with unclosed braces throws the unmatched-bracket
`Error`, and a premature right brace crashes with a `TypeError` from
`stack.pop()` yielding `undefined`. -/
lemma parseLoop_class (file : List Char) :
    ∀ (cs : List Char) (cur : List Item × List Char)
      (stack : List (List Item × List Char)),
      (scan cs stack.length = .ok → (parseLoop file cs cur stack).isOk = true) ∧
      (scan cs stack.length = .openBrace →
        parseLoop file cs cur stack =
          .error (.err (throwErrorMsg "Unmatched curly bracket".data file))) ∧
      (scan cs stack.length = .closeBrace →
        parseLoop file cs cur stack = .error .typeError) := by
  intro cs
  induction cs with
  | nil =>
    intro cur stack
    cases stack with
    | nil => simp [scan, parseLoop, Except.isOk, Except.toBool]
    | cons top rest => simp [scan, parseLoop]
  | cons c cs ih =>
    intro cur stack
    by_cases hl : c = lbrace
    · subst hl
      rw [parseLoop_lbrace, scan_lbrace]
      have := ih ([], []) (cur :: stack)
      simpa using this
    · by_cases hr : c = rbrace
      · subst hr
        cases stack with
        | nil =>
          rw [parseLoop_rbrace_nil]
          simp only [List.length_nil, scan_rbrace_zero]
          simp
        | cons top rest =>
          rw [parseLoop_rbrace_cons, List.length_cons, scan_rbrace_succ]
          exact ih _ rest
      · rw [parseLoop_other file hl hr, scan_other hl hr]
        exact ih _ stack

/-- Round-trip invariant of `parseLoop`: a successful parse's tree
unparses to the stack context, the current node's text and the
remaining input. -/
lemma parseLoop_unparse (file : List Char) :
    ∀ (cs : List Char) (cur : List Item × List Char)
      (stack : List (List Item × List Char)) (t : List Item),
      parseLoop file cs cur stack = .ok t →
      unparseList t = unparseStack stack ++ unparseCur cur ++ cs := by
  intro cs
  induction cs with
  | nil =>
    intro cur stack t h
    cases stack with
    | nil =>
      simp only [parseLoop, Except.ok.injEq] at h
      subst h
      simp [unparseStack, unparseCur, unparseList_append, unparseList, unparseItem]
    | cons top rest => simp [parseLoop] at h
  | cons c cs ih =>
    intro cur stack t h
    by_cases hl : c = lbrace
    · subst hl
      rw [parseLoop_lbrace] at h
      have := ih ([], []) (cur :: stack) t h
      simp only [unparseStack, unparseCur, unparseList] at this ⊢
      simp at this
      simp [this]
    · by_cases hr : c = rbrace
      · subst hr
        cases stack with
        | nil => rw [parseLoop_rbrace_nil] at h; cases h
        | cons top rest =>
          rw [parseLoop_rbrace_cons] at h
          have := ih _ rest t h
          simp only [unparseStack, unparseCur, unparseList_append, unparseList,
            unparseItem] at this ⊢
          simp at this
          simp [this]
      · rw [parseLoop_other file hl hr] at h
        have := ih _ stack t h
        simp only [unparseCur] at this ⊢
        simp [this]

/-! ## C2 -/

/-- C2 (counterexample): the claim says a template with an extra right
brace makes `parse` throw the Unmatched-brace failure (a diagnostic
`Error`).  On the input consisting of a single right brace the scan
classifies the input as having an extra right brace, yet `parse`
crashes with a `TypeError` (from `parent.push` on the `undefined`
popped off the empty stack, compiler.js lines 82-83), which is not a
thrown diagnostic `Error` and carries no file identifier. -/
theorem c2_counterexample :
    scan "\x7d".data 0 = .closeBrace ∧
    parse "f".data "\x7d".data = .error .typeError ∧
    isThrownError .typeError = false :=
  ⟨by decide, by rfl, by rfl⟩

/-- C2 (amended): for every template with balanced braces `parse`
returns a tree without throwing; a template whose scan ends with
unclosed left braces makes `parse` throw the Unmatched-brace `Error`
whose message contains the caller-supplied file identifier; but a
template with an extra right brace makes `parse` crash with a
`TypeError`, not the diagnostic failure. -/
theorem c2_parse_brace_classification (file s : List Char) :
    (scan s 0 = .ok → (parse file s).isOk = true) ∧
    (scan s 0 = .openBrace →
      parse file s =
        .error (.err (throwErrorMsg "Unmatched curly bracket".data file)) ∧
      file <:+: throwErrorMsg "Unmatched curly bracket".data file) ∧
    (scan s 0 = .closeBrace → parse file s = .error .typeError) := by
  have h := parseLoop_class file s ([], []) []
  simp only [List.length_nil] at h
  refine ⟨fun hs => h.1 hs, fun hs => ⟨h.2.1 hs, ?_⟩, fun hs => h.2.2 hs⟩
  exact ⟨"Unmatched curly bracket".data ++ "\nFile: ".data, [],
    by simp [throwErrorMsg]⟩

/-- C2 (witness): the three branches of the classification at concrete
inputs. -/
theorem c2_witness :
    (parse "f".data "a\x7bb\x7dc".data).isOk = true ∧
    parse "g".data "\x7ba".data =
      .error (.err (throwErrorMsg "Unmatched curly bracket".data "g".data)) ∧
    parse "h".data "x\x7dy".data = .error .typeError :=
  ⟨(c2_parse_brace_classification "f".data "a\x7bb\x7dc".data).1 (by decide),
   ((c2_parse_brace_classification "g".data "\x7ba".data).2.1 (by decide)).1,
   (c2_parse_brace_classification "h".data "x\x7dy".data).2.2 (by decide)⟩

/-! ## C3 -/

/-- C3: for every input with balanced braces, the parse succeeds and
concatenating the tree's string slots in document order, wrapping each
child node's contents in the braces that delimited it, reconstructs
the input exactly. -/
theorem c3_parse_unparse_roundtrip (file s : List Char)
    (h : balanced s = true) :
    ∃ t, parse file s = .ok t ∧ unparseList t = s := by
  have hs : scan s 0 = .ok := by simpa [balanced] using h
  have hc := (parseLoop_class file s ([], []) []).1 (by simpa using hs)
  match hp : parseLoop file s ([], []) [] with
  | .ok t =>
    refine ⟨t, hp, ?_⟩
    have := parseLoop_unparse file s ([], []) [] t hp
    simpa [unparseStack, unparseCur, unparseList] using this
  | .error e => rw [hp] at hc; cases hc

/-- C3 (witness): the round trip at the concrete input
`a\x7bb c\x7dd`. -/
theorem c3_witness :
    balanced "a\x7bb c\x7dd".data = true ∧
    parse "f".data "a\x7bb c\x7dd".data =
      .ok [.str "a".data, .node [.str "b c".data], .str "d".data] ∧
    unparseList [.str "a".data, .node [.str "b c".data], .str "d".data] =
      "a\x7bb c\x7dd".data := by
  obtain ⟨t, ht, hu⟩ :=
    c3_parse_unparse_roundtrip "f".data "a\x7bb c\x7dd".data (by decide)
  have hteq : Except.ok t =
      (.ok [Item.str "a".data, Item.node [Item.str "b c".data],
        Item.str "d".data] : Except JsError (List Item)) :=
    ht.symm.trans (by rfl)
  cases Except.ok.inj hteq
  exact ⟨by decide, ht, hu⟩

/-! ## C1 -/

/-- C1 (counterexample): the claim says a present value that compares
falsy is reported as present and rendered: `.` should append it and
`has` should take its children branch.  With data `\x7ba: false\x7d` the
value at `a` is present (property read yields `false`), yet
`\x7b. a\x7d` renders the empty string (not `"false"`) and
`\x7bhas a x\x7d` renders the empty string (children skipped), because
`resolve`'s loop descends only through truthy property values and
reports `undefined` otherwise (compiler.js lines 792-798). -/
theorem c1_counterexample :
    getProp (Value.vObj [("a".data, .vBool false)] none) "a".data = .vBool false ∧
    render [] "f".data "\x7b. a\x7d".data
      (.vObj [("a".data, .vBool false)] none) = .ok [] ∧
    render [] "f".data "\x7bhas a x\x7d".data
      (.vObj [("a".data, .vBool false)] none) = .ok [] ∧
    ([] : List Char) ≠ "false".data ∧
    ([] : List Char) ≠ "x".data :=
  ⟨by rfl, by rfl, by rfl, by decide, by decide⟩

/-- C1 (amended): render-time resolution is total (never throws), and
an absent value behaves as empty/false, but presence is reported by
truthiness, not existence: on a single-segment path, `resolve` returns
the stored value exactly when that value is truthy and returns
`undefined` when the stored value is falsy (zero, empty string, false)
or missing, so `.` appends the empty string and `has` skips its
children for present falsy values. -/
theorem c1_falsy_present_is_absent (data : Value) (k : List Char)
    (hk : k ≠ []) (hdot : '.' ∉ k) :
    resolve ('.' :: k) data =
      (if truthy (getProp data k) then getProp data k else .vUndefined) ∧
    (truthy (getProp data k) = false →
      jsStr (resolve ('.' :: k) data) = []) ∧
    (isUndef (resolve ('.' :: k) data) = false ↔
      truthy (getProp data k) = true) := by
  have hsplit : splitDot ('.' :: k) = [] :: [k] := by
    have hbody := splitDot_no_dot hdot
    simp [splitDot, hbody]
  have hres : resolve ('.' :: k) data =
      (if truthy (getProp data k) then getProp data k else .vUndefined) := by
    rw [resolve, hsplit]
    simp [hk, resolveParts]
  refine ⟨hres, ?_, ?_⟩
  · intro hfalse
    rw [hres, if_neg (by simp [hfalse])]
    rfl
  · by_cases ht : truthy (getProp data k) = true
    · simp [hres, ht, truthy_ne_vUndefined ht]
    · simp only [Bool.not_eq_true] at ht
      simp [hres, ht, isUndef]

/-- C1 (witness): classification at concrete data, on the falsy side
(`a` bound to `0`) and the truthy side (`b` bound to `7`). -/
theorem c1_witness :
    resolve ".a".data (.vObj [("a".data, .vNum 0)] none) = .vUndefined ∧
    jsStr (resolve ".a".data (.vObj [("a".data, .vNum 0)] none)) = [] ∧
    resolve ".b".data (.vObj [("b".data, .vNum 7)] none) = .vNum 7 := by
  have h0 := c1_falsy_present_is_absent (.vObj [("a".data, .vNum 0)] none)
    "a".data (by decide) (by decide)
  have h7 := c1_falsy_present_is_absent (.vObj [("b".data, .vNum 7)] none)
    "b".data (by decide) (by decide)
  refine ⟨?_, h0.2.1 (by rfl), ?_⟩
  · rw [show (".a".data : List Char) = '.' :: "a".data from rfl, h0.1]; rfl
  · rw [show (".b".data : List Char) = '.' :: "b".data from rfl, h7.1]; rfl

/-! ## C7 -/

/-- C7: macro dispatch consults the caller-supplied registry first
(`macros[macroName] || nativeMacros[macroName]`, compiler.js line 534),
so whenever the extracted macro name is bound in the user registry —
including names that collide with built-ins — the user macro is the one
invoked, receiving the node with its name token consumed. -/
theorem c7_user_macro_precedence (macros : Registry) (file s : List Char)
    (rest : List Item) (m : List Item → Code)
    (hm : regLookup macros (argTok s) = some m) :
    transformNode macros file (.str s :: rest) =
      .ok (m (.str (argRem s) :: rest)) := by
  simp [transformNode, hm]

/-- C7 (witness): a user macro registered under the built-in name
`each` is the one invoked for an `each` node. -/
theorem c7_witness :
    transformNode [("each".data, fun _ => Code.pushLit "X".data)] "f".data
      [.str "each items y".data] = .ok (.pushLit "X".data) ∧
    "each".data ∈ nativeNames := by
  refine ⟨?_, by decide⟩
  have h := c7_user_macro_precedence
    [("each".data, fun _ => Code.pushLit "X".data)] "f".data
    "each items y".data [] (fun _ => Code.pushLit "X".data) (by rfl)
  exact h

/-! ## C9 -/

/-- C9: the compiled render function begins with
`data = data || \x7b\x7d` (compiler.js line 769), so calling it with
any falsy data argument produces exactly the output produced for an
empty object. -/
theorem c9_falsy_data_default (macros : Registry) (file input : List Char)
    (code : Code) (d : Value) (hc : compile macros file input = .ok code)
    (hd : truthy d = false) :
    wrapTemplate code d = wrapTemplate code (.vObj [] none) ∧
    render macros file input d = .ok (wrapTemplate code (.vObj [] none)) := by
  have h1 : wrapTemplate code d = wrapTemplate code (.vObj [] none) := by
    simp [wrapTemplate, hd, show truthy (.vObj [] none) = true from rfl]
  exact ⟨h1, by simp [render, hc, Except.map, h1]⟩

/-- C9 (witness): the compiled code of `\x7b. a\x7d` renders the same
for data `0` as for the empty object. -/
theorem c9_witness :
    wrapTemplate (.seq .skip (.seq (.pushResolve ".a".data) (.seq .skip .skip)))
        (.vNum 0) =
      wrapTemplate (.seq .skip (.seq (.pushResolve ".a".data) (.seq .skip .skip)))
        (.vObj [] none) :=
  (c9_falsy_data_default [] "f".data "\x7b. a\x7d".data
    (.seq .skip (.seq (.pushResolve ".a".data) (.seq .skip .skip)))
    (.vNum 0) (by rfl) (by rfl)).1

/-! ## C4 -/

/-- The loop emitted by `each` leaves the ambient path unchanged: every
iteration restores the path it started from (each iteration body runs
inside its own `keepPath` function expression). -/
lemma exec_eachLoop_path (data : Value) (p : List Char) (b : Code)
    (s : RState) : (exec data (.eachLoop p b) s).path = s.path := by
  show (List.foldl _ s _).path = s.path
  generalize eachVisits (resolve p data) = l
  induction l generalizing s with
  | nil => rfl
  | cons kv rest ih => exact (ih _).trans rfl

/-- C4: path mutation inside `->` and `each` is scoped.  The code both
macros generate is wrapped in `helper.keepPath`'s function expression
(compiler.js lines 615, 652, 757-758), whose execution restores the
ambient path; hence sibling code following the region observes the
path that was current before the region was entered, and the `each`
loop — whose every iteration is its own `keepPath` scope — also leaves
the ambient path unchanged. -/
theorem c4_path_scoping :
    (∀ (data : Value) (c : Code) (s : RState),
      (exec data (.keepPath c) s).path = s.path) ∧
    (∀ (data : Value) (c k : Code) (s : RState),
      exec data (.seq (.keepPath c) k) s =
        exec data k ⟨s.path, (exec data c s).out⟩) ∧
    (∀ (data : Value) (p : List Char) (b : Code) (s : RState),
      (exec data (.eachLoop p b) s).path = s.path) ∧
    (∀ (macros : Registry) (file s₀ : List Char) (rest : List Item) (c : Code),
      regLookup macros (argTok s₀) = none →
      (argTok s₀ = "->".data ∨ argTok s₀ = "each".data) →
      transformNode macros file (.str s₀ :: rest) = .ok c →
      ∃ b, c = .keepPath b) := by
  refine ⟨fun _ _ _ => rfl, fun _ _ _ _ => rfl, exec_eachLoop_path, ?_⟩
  intro macros file s₀ rest c hreg hname hc
  rcases hname with hname | hname <;>
    · rw [hname] at hreg
      simp only [transformNode, hname, hreg] at hc
      rcases hti : transformItems macros file rest with e | b <;>
        simp [hti, Bind.bind, Except.bind,
          (by decide : ¬ ("->".data : List Char) = "out".data),
          (by decide : ¬ ("->".data : List Char) = ".".data),
          (by decide : ¬ ("each".data : List Char) = "out".data),
          (by decide : ¬ ("each".data : List Char) = ".".data),
          (by decide : ¬ ("each".data : List Char) = "->".data),
          (by decide : ¬ ("each".data : List Char) = "has".data)] at hc
      exact ⟨_, hc.symm⟩

/-- C4 (witness): the scoping facts at concrete inputs; the code
generated for a concrete `->` node is a `keepPath` wrapper. -/
theorem c4_witness :
    (exec (.vObj [] none) (.keepPath (.assignAdd ".x".data))
      ⟨".p".data, []⟩).path = ".p".data ∧
    (exec (.vObj [] none) (.eachLoop ".x".data .skip)
      ⟨".p".data, []⟩).path = ".p".data ∧
    (∃ b, Code.keepPath (.seq (.assignAdd ".y".data) (.seq .skip .skip)) =
      .keepPath b) := by
  refine ⟨c4_path_scoping.1 _ _ _, c4_path_scoping.2.2.1 _ _ _ _, ?_⟩
  exact c4_path_scoping.2.2.2 [] "f".data "-> y".data [] _ (by rfl)
    (Or.inl (by rfl)) (by rfl)

/-! ## C5 -/

/-- C5: the runtime `each` (compiler.js lines 809-822) performs zero
visits on any falsy value, visits an array once per index in order
`0..length-1` passing the index and element, and visits a mapping once
per own key in list order with the stored value — prototype keys are
filtered out by the `hasOwnProperty` guard regardless of what the
prototype contributes. -/
theorem c5_each_visits :
    (∀ v : Value, truthy v = false → eachVisits v = []) ∧
    (∀ elems : List Value,
      eachVisits (.vArr elems) =
        elems.enum.map (fun p => (.vNum (Int.ofNat p.1), p.2))) ∧
    (∀ (own : List (List Char × Value)) (proto : Option Value),
      (own.map Prod.fst).Nodup →
      eachVisits (.vObj own proto) =
        own.map (fun kv => (.vStr kv.1, kv.2))) := by
  refine ⟨?_, ?_, ?_⟩
  · intro v hv
    simp [eachVisits, hv]
  · intro elems
    simp only [eachVisits, truthy]
    apply List.ext_getElem?
    intro n
    by_cases hn : n < elems.length
    · have hx : elems[n]? = some elems[n] := List.getElem?_eq_getElem hn
      simp [List.getElem?_range, hn, hx, List.get?_eq_getElem?]
    · have h1 : elems[n]? = none := List.getElem?_eq_none (Nat.le_of_not_lt hn)
      simp [hn, h1, Nat.le_of_not_lt hn]
  · intro own proto hnd
    have h1 : (own.map Prod.fst).filter (hasOwn own) = own.map Prod.fst := by
      refine List.filter_eq_self.mpr fun k hk => ?_
      simpa [hasOwn] using lookupStr_isSome_of_mem hk
    have hkeys : (forInKeys (.vObj own proto)).filter (hasOwn own) =
        own.map Prod.fst := by
      cases proto with
      | none => simpa [forInKeys] using h1
      | some p =>
        have h2 : ((forInKeys p).filter
            (fun k => !((own.map Prod.fst).contains k))).filter (hasOwn own) = [] := by
          refine List.filter_eq_nil_iff.mpr fun k hk => ?_
          have hmem := (List.mem_filter.mp hk).2
          have hnotmem : k ∉ own.map Prod.fst := by
            intro hin
            simp at hmem
            obtain ⟨kv, hkvmem, hkeq⟩ := List.mem_map.mp hin
            subst hkeq
            exact hmem kv.2 hkvmem
          simp [hasOwn, lookupStr_eq_none_of_not_mem hnotmem]
        simp only [forInKeys]
        rw [List.filter_append, h1, h2, List.append_nil]
    simp only [eachVisits, truthy]
    rw [hkeys, List.map_map]
    exact List.map_congr_left fun kv hkv => by
      simp [Function.comp, getProp, lookupStr_of_mem_nodup hnd hkv]

/-- C5 (witness): zero visits on `0`; index visits in order on a
two-element array; own-key visits on an object whose prototype holds
an extra key that is not visited. -/
theorem c5_witness :
    eachVisits (.vNum 0) = [] ∧
    eachVisits (.vArr [.vStr "a".data, .vStr "b".data]) =
      [(.vNum 0, .vStr "a".data), (.vNum 1, .vStr "b".data)] ∧
    eachVisits (.vObj [("a".data, .vNum 1), ("b".data, .vNum 2)]
        (some (.vObj [("c".data, .vNum 3)] none))) =
      [(.vStr "a".data, .vNum 1), (.vStr "b".data, .vNum 2)] := by
  refine ⟨c5_each_visits.1 (.vNum 0) (by rfl), ?_, ?_⟩
  · rw [c5_each_visits.2.1 [.vStr "a".data, .vStr "b".data]]
    rfl
  · rw [c5_each_visits.2.2 [("a".data, .vNum 1), ("b".data, .vNum 2)]
      (some (.vObj [("c".data, .vNum 3)] none)) (by decide)]
    rfl

/-! ## C6 -/

/-- Frame property of the generated code's execution: running a
fragment only appends to `__out` — the appended suffix and the
resulting path depend on the data and the incoming path but not on the
output accumulated so far. -/
lemma exec_frame (data : Value) (c : Code) :
    ∀ (p : List Char) (o : List Value),
      exec data c ⟨p, o⟩ =
        ⟨(exec data c ⟨p, []⟩).path, o ++ (exec data c ⟨p, []⟩).out⟩ := by
  induction c with
  | skip => intro p o; simp [exec]
  | seq a b iha ihb =>
    intro p o
    simp only [exec]
    rw [iha p o, ihb _ (o ++ (exec data a ⟨p, []⟩).out), iha p []]
    simp only [List.nil_append]
    rw [ihb ((exec data a ⟨p, []⟩).path) ((exec data a ⟨p, []⟩).out)]
    simp [List.append_assoc]
  | pushLit str => intro p o; simp [exec]
  | pushResolve q => intro p o; simp [exec]
  | pushPath q => intro p o; simp [exec]
  | ifHas q b ihb =>
    intro p o
    by_cases hcond : isUndef (resolve (p ++ q) data) = false
    · simp only [exec, hcond, if_pos rfl]
      exact ihb p o
    · simp [exec, hcond]
  | assignAdd q => intro p o; simp [exec]
  | keepPath b ihb =>
    intro p o
    simp only [exec]
    rw [ihb p o]
  | eachLoop q b ihb =>
    intro p o
    simp only [exec]
    generalize eachVisits (resolve q data) = l
    induction l generalizing o with
    | nil => simp
    | cons kv rest ihl =>
      simp only [List.foldl_cons]
      rw [ihb (p ++ '.' :: jsStr kv.1) o]
      dsimp only
      rw [ihl (o ++ (exec data b ⟨p ++ '.' :: jsStr kv.1, []⟩).out),
        ihl ((exec data b ⟨p ++ '.' :: jsStr kv.1, []⟩).out)]
      simp [List.append_assoc]

/-- C6: compilation is a function of the template text and the macro
registry — compiling twice yields behaviorally identical render
functions — and the render function's execution has no effect other
than appending its computed output: the output it adds is independent
of anything accumulated before, and the final string is a function of
the code and the data alone. -/
theorem c6_deterministic_pure_render (macros : Registry)
    (file input : List Char) (data : Value) (c₁ c₂ : Code)
    (h₁ : compile macros file input = .ok c₁)
    (h₂ : compile macros file input = .ok c₂) :
    wrapTemplate c₁ data = wrapTemplate c₂ data ∧
    (∀ (d : Value) (c : Code) (p : List Char) (o : List Value),
      (exec d c ⟨p, o⟩).out = o ++ (exec d c ⟨p, []⟩).out) := by
  constructor
  · have hc : c₁ = c₂ := by
      rw [h₁] at h₂
      exact Except.ok.inj h₂
    rw [hc]
  · intro d c p o
    rw [exec_frame d c p o]

/-- C6 (witness): behavioral equality of two compilations of
`\x7b. a\x7d` and output-locality of a concrete execution. -/
theorem c6_witness :
    wrapTemplate (.seq .skip (.seq (.pushResolve ".a".data) (.seq .skip .skip)))
        (.vStr "s".data) =
      wrapTemplate (.seq .skip (.seq (.pushResolve ".a".data) (.seq .skip .skip)))
        (.vStr "s".data) ∧
    (exec (.vObj [] none) (.pushLit "x".data)
        ⟨[], [.vStr "y".data]⟩).out =
      [.vStr "y".data] ++
        (exec (.vObj [] none) (.pushLit "x".data) ⟨[], []⟩).out := by
  have h := c6_deterministic_pure_render [] "f".data "\x7b. a\x7d".data
    (.vStr "s".data)
    (.seq .skip (.seq (.pushResolve ".a".data) (.seq .skip .skip)))
    (.seq .skip (.seq (.pushResolve ".a".data) (.seq .skip .skip)))
    (by rfl) (by rfl)
  exact ⟨h.1, h.2 (.vObj [] none) (.pushLit "x".data) [] [.vStr "y".data]⟩

/-! ## C8 -/

/-- Characters that are neither brace accumulate into the current
string slot, one after the other. -/
lemma parseLoop_noBrace (file : List Char) :
    ∀ (xs : List Char), (∀ c ∈ xs, c ≠ lbrace ∧ c ≠ rbrace) →
    ∀ (rest : List Char) (cur : List Item × List Char)
      (stack : List (List Item × List Char)),
      parseLoop file (xs ++ rest) cur stack =
        parseLoop file rest (cur.1, cur.2 ++ xs) stack := by
  intro xs
  induction xs with
  | nil => intro h rest cur stack; simp
  | cons c xs ih =>
    intro h rest cur stack
    have hc := h c (by simp)
    rw [List.cons_append, parseLoop_other file hc.1 hc.2,
      ih (fun x hx => h x (by simp [hx])) rest (cur.1, cur.2 ++ [c]) stack]
    simp

/-- C8 (counterexample): the claim says every template containing a
node with an unregistered macro name fails to compile.  The template
`\x7b. a \x7bzzz\x7d\x7d` contains a `zzz` node — `zzz` is registered
neither as a user macro nor as a built-in — yet compilation succeeds
and produces a render function, because the `.` macro never transforms
its children (compiler.js lines 601-604), so the `zzz` node is never
dispatched. -/
theorem c8_counterexample :
    (compile [] "f".data "\x7b. a \x7bzzz\x7d\x7d".data).isOk = true ∧
    regLookup [] "zzz".data = none ∧
    "zzz".data ∉ nativeNames ∧
    render [] "f".data "\x7b. a \x7bzzz\x7d\x7d".data
      (.vObj [("a".data, .vNum 5)] none) = .ok "5".data :=
  ⟨by rfl, by rfl, by decide, by rfl⟩

/-- C8 (amended): transforming a node whose macro name is registered
neither as a user macro nor as a built-in throws the Unknown-macro
`Error` synchronously, with the offending name inside the message; in
particular a template consisting of such a macro invocation at top
level fails to compile (no render function is produced).  Nodes that
no macro ever transforms (children of `.` or `path`) escape this
check. -/
theorem c8_unknown_macro_error (macros : Registry) (file name : List Char)
    (hreg : regLookup macros name = none)
    (hout : regLookup macros "out".data = none)
    (hnative : name ∉ nativeNames)
    (hch : ∀ c ∈ name, isSpaceJS c = false ∧ c ≠ lbrace ∧ c ≠ rbrace) :
    (∀ (s₀ : List Char) (rest : List Item), argTok s₀ = name →
      transformNode macros file (.str s₀ :: rest) =
        .error (.err (throwErrorMsg
          ("Not a macro: \x22".data ++ name ++ "\x22".data) file))) ∧
    name <:+:
      throwErrorMsg ("Not a macro: \x22".data ++ name ++ "\x22".data) file ∧
    compile macros file (lbrace :: name ++ [rbrace]) =
      .error (.err (throwErrorMsg
        ("Not a macro: \x22".data ++ name ++ "\x22".data) file)) := by
  simp only [nativeNames, List.mem_cons, List.not_mem_nil, or_false, not_or] at hnative
  obtain ⟨hn1, hn2, hn3, hn4, hn5, hn6⟩ := hnative
  have hmain : ∀ (s₀ : List Char) (rest : List Item), argTok s₀ = name →
      transformNode macros file (.str s₀ :: rest) =
        .error (.err (throwErrorMsg
          ("Not a macro: \x22".data ++ name ++ "\x22".data) file)) := by
    intro s₀ rest hs
    simp [transformNode, hs, hreg, hn1, hn2, hn3, hn4, hn5, hn6]
  refine ⟨hmain, ⟨"Not a macro: \x22".data,
    "\x22".data ++ "\nFile: ".data ++ file, by simp [throwErrorMsg]⟩, ?_⟩
  have hspace : ∀ c ∈ name, isSpaceJS c = false := fun c hc => (hch c hc).1
  have hbrace : ∀ c ∈ name, c ≠ lbrace ∧ c ≠ rbrace := fun c hc => (hch c hc).2
  have hparse : parse file ("out ".data ++ (lbrace :: name ++ [rbrace])) =
      .ok [.str "out ".data, .node [.str name], .str []] := by
    show parseLoop file ("out ".data ++ (lbrace :: name ++ [rbrace]))
      ([], []) [] = _
    rw [parseLoop_noBrace file "out ".data (by decide) _ ([], []) []]
    show parseLoop file (lbrace :: (name ++ [rbrace])) ([], "out ".data) [] = _
    rw [parseLoop_lbrace,
      parseLoop_noBrace file name hbrace _ ([], []) [([], "out ".data)]]
    show parseLoop file (rbrace :: []) ([], name) [([], "out ".data)] = _
    rw [parseLoop_rbrace_cons]
    simp [parseLoop]
  show (do
    let tree ← parse file ("out ".data ++ (lbrace :: name ++ [rbrace]))
    transformNode macros file tree) = _
  rw [hparse]
  show transformNode macros file [.str "out ".data, .node [.str name], .str []] = _
  simp [transformNode, transformItems, transformItem,
    show argTok "out ".data = "out".data from rfl,
    show argRem "out ".data = [] from rfl, hout,
    argTok_no_space hspace, argRem_no_space hspace, hreg,
    hn1, hn2, hn3, hn4, hn5, hn6, Bind.bind, Except.bind]

/-- C8 (witness): the amended statement at the concrete unregistered
name `zzz`. -/
theorem c8_witness :
    transformNode [] "f".data [.str "zzz".data] =
      .error (.err (throwErrorMsg
        ("Not a macro: \x22".data ++ "zzz".data ++ "\x22".data) "f".data)) ∧
    "zzz".data <:+:
      throwErrorMsg ("Not a macro: \x22".data ++ "zzz".data ++ "\x22".data)
        "f".data ∧
    compile [] "f".data (lbrace :: "zzz".data ++ [rbrace]) =
      .error (.err (throwErrorMsg
        ("Not a macro: \x22".data ++ "zzz".data ++ "\x22".data) "f".data)) := by
  have h := c8_unknown_macro_error [] "f".data "zzz".data (by rfl) (by rfl)
    (by decide) (by decide)
  exact ⟨h.1 "zzz".data [] (by rfl), h.2.1, h.2.2⟩

/-! ## C10 -/

/-- C10 (counterexample): the claim says every template containing an
empty brace pair fails to compile with the Unknown-macro error for the
empty name.  The template `\x7b. a \x7b\x7d\x7d` contains the empty
brace pair `\x7b\x7d`, no user macro is registered, and yet
compilation succeeds and the compiled function renders, because the
`.` macro never transforms its children, so the empty node is never
dispatched. -/
theorem c10_counterexample :
    (compile [] "f".data "\x7b. a \x7b\x7d\x7d".data).isOk = true ∧
    render [] "f".data "\x7b. a \x7b\x7d\x7d".data
      (.vObj [("a".data, .vStr "v".data)] none) = .ok "v".data :=
  ⟨by rfl, by rfl⟩

/-- C10 (amended): argument extraction on a node whose leading string
slot has no non-whitespace characters returns the empty string, and
transforming such a node with no user macro under the empty name
throws the Unknown-macro `Error` carrying the empty macro name; in
particular the template `\x7b\x7d` fails to compile that way.  An
empty node that transformation never reaches (for example under `.`)
does not abort compilation. -/
theorem c10_empty_macro_name (macros : Registry) (file : List Char)
    (hreg : regLookup macros [] = none)
    (hout : regLookup macros "out".data = none) :
    (∀ (s₀ : List Char) (rest : List Item), (∀ c ∈ s₀, isSpaceJS c = true) →
      argTok s₀ = [] ∧
      transformNode macros file (.str s₀ :: rest) =
        .error (.err (throwErrorMsg "Not a macro: \x22\x22".data file))) ∧
    compile macros file [lbrace, rbrace] =
      .error (.err (throwErrorMsg "Not a macro: \x22\x22".data file)) := by
  have hmsg : ("Not a macro: \x22".data ++ ([] : List Char) ++ "\x22".data) =
      "Not a macro: \x22\x22".data := by decide
  have hmain : ∀ (s₀ : List Char) (rest : List Item),
      (∀ c ∈ s₀, isSpaceJS c = true) →
      argTok s₀ = [] ∧
      transformNode macros file (.str s₀ :: rest) =
        .error (.err (throwErrorMsg "Not a macro: \x22\x22".data file)) := by
    intro s₀ rest hs
    have htok := argTok_all_space hs
    refine ⟨htok, ?_⟩
    rw [← hmsg]
    simp [transformNode, htok, hreg]
  refine ⟨hmain, ?_⟩
  have hparse : parse file ("out ".data ++ [lbrace, rbrace]) =
      .ok [.str "out ".data, .node [.str []], .str []] := by rfl
  show (do
    let tree ← parse file ("out ".data ++ [lbrace, rbrace])
    transformNode macros file tree) = _
  rw [hparse]
  show transformNode macros file [.str "out ".data, .node [.str []], .str []] = _
  simp [transformNode, transformItems, transformItem,
    show argTok "out ".data = "out".data from rfl,
    show argRem "out ".data = [] from rfl, hout,
    show argTok ([] : List Char) = [] from rfl,
    show argRem ([] : List Char) = [] from rfl, hreg,
    Bind.bind, Except.bind]

/-- C10 (witness): the amended statement at the whitespace-only
leading slot `" "` and the empty registry. -/
theorem c10_witness :
    argTok " ".data = [] ∧
    transformNode [] "f".data [.str " ".data] =
      .error (.err (throwErrorMsg "Not a macro: \x22\x22".data "f".data)) ∧
    compile [] "f".data [lbrace, rbrace] =
      .error (.err (throwErrorMsg "Not a macro: \x22\x22".data "f".data)) := by
  have h := c10_empty_macro_name [] "f".data (by rfl) (by rfl)
  exact ⟨(h.1 " ".data [] (by decide)).1, (h.1 " ".data [] (by decide)).2, h.2⟩

end RP
